import Mathlib

/-!
# A shallow embedding of `vdb.h` (kirisakow/vdb)

`vdb.h` is a single-header C library implementing an in-memory vector
database: a growable array of records (float vector, optional C-string id,
opaque `void*` metadata), exact brute-force k-NN search under one of three
metrics, and a flat binary persistence format.

Modelling conventions, used uniformly below:

* C `float` values are modelled by an arbitrary linear ordered field `α`
  (instantiated at `ℚ` for executable witnesses and at `ℝ` for the metric
  identities); `sqrtf` is passed explicitly as a function `α → α` and is
  instantiated with `Real.sqrt` where its algebraic properties matter.
* A C buffer pointer together with its length is a `List α`.  Reading `dims`
  elements from a buffer is `List.take dims`; reading past the end of a
  shorter buffer is undefined behaviour, modelled by returning `none`.
* A nullable pointer argument is an `Option`; `void*` metadata is an opaque
  machine word, `Option Nat`, with `none` for `NULL`.
* The backing array `vectors` together with the live `count` is modelled by
  the list of live records (`count` is its length); `capacity` is kept as a
  separate field exactly as in the struct.
* Allocation (`malloc`/`realloc`) is assumed to succeed: the out-of-memory
  error paths of the C code are not reachable in the model.
* The saved file is a list of field-granular tokens (one token per fwrite'd
  field element); integer field widths are abstracted to `Nat`.
* The `VDB_MULTITHREADED` lock code compiles away here (single-threaded
  build): locks have no observable effect in the sequential model.
-/

/-- `vdb_error` from `vdb.h` (the enum's numeric values are irrelevant to
behaviour; constructors keep the C names). -/
inductive vdb_error where
  | VDB_OK
  | VDB_ERROR_NULL_POINTER
  | VDB_ERROR_INVALID_DIMENSIONS
  | VDB_ERROR_OUT_OF_MEMORY
  | VDB_ERROR_NOT_FOUND
  | VDB_ERROR_INVALID_INDEX
  | VDB_ERROR_THREAD_FAILURE
  deriving DecidableEq, Repr

export vdb_error (VDB_OK VDB_ERROR_NULL_POINTER VDB_ERROR_INVALID_DIMENSIONS
  VDB_ERROR_OUT_OF_MEMORY VDB_ERROR_NOT_FOUND VDB_ERROR_INVALID_INDEX
  VDB_ERROR_THREAD_FAILURE)

/-- `vdb_metric` from `vdb.h`. -/
inductive vdb_metric where
  | VDB_METRIC_COSINE
  | VDB_METRIC_EUCLIDEAN
  | VDB_METRIC_DOT_PRODUCT
  deriving DecidableEq, Repr

export vdb_metric (VDB_METRIC_COSINE VDB_METRIC_EUCLIDEAN VDB_METRIC_DOT_PRODUCT)

/-- `vdb_vector`: one stored record.  `data` is the owned float buffer
(`dimensions` entries once stored), `id` the owned nullable C string,
`metadata` the caller's `void*` (`none` = `NULL`). -/
structure vdb_vector (α : Type) where
  data : List α
  id : Option String
  metadata : Option Nat
  deriving DecidableEq, Repr

/-- `vdb_database`: the struct from `vdb.h`.  The live prefix
`vectors[0..count)` of the backing array is the list `vectors`
(so `count = vectors.length`); `capacity` is the allocated slot count. -/
structure vdb_database (α : Type) where
  vectors : List (vdb_vector α)
  capacity : Nat
  dimensions : Nat
  metric : vdb_metric
  deriving DecidableEq, Repr

/-- `vdb_result`: one search hit. -/
structure vdb_result (α : Type) where
  index : Nat
  distance : α
  id : Option String
  metadata : Option Nat
  deriving DecidableEq, Repr

section MetricEngine

variable {α : Type} [LinearOrderedField α]

/-- `vdb_dot_product(a, b, dims)`: sum of `a[i] * b[i]` for `i < dims`. -/
def vdb_dot_product (a b : List α) (dims : Nat) : α :=
  ((a.take dims).zipWith (· * ·) (b.take dims)).sum

/-- `vdb_magnitude(v, dims)`: `sqrtf` of the sum of `v[i] * v[i]` for
`i < dims`; `sqrtf` is passed explicitly as `sqrt`. -/
def vdb_magnitude (sqrt : α → α) (v : List α) (dims : Nat) : α :=
  sqrt ((v.take dims).map (fun x => x * x)).sum

/-- `vdb_cosine_similarity(a, b, dims)`: returns `0` when either magnitude
is exactly zero, otherwise `dot / (mag_a * mag_b)`. -/
def vdb_cosine_similarity (sqrt : α → α) (a b : List α) (dims : Nat) : α :=
  let dot := vdb_dot_product a b dims
  let mag_a := vdb_magnitude sqrt a dims
  let mag_b := vdb_magnitude sqrt b dims
  if mag_a = 0 ∨ mag_b = 0 then 0 else dot / (mag_a * mag_b)

/-- `vdb_euclidean_distance(a, b, dims)`: `sqrtf` of the sum of squared
coordinate differences. -/
def vdb_euclidean_distance (sqrt : α → α) (a b : List α) (dims : Nat) : α :=
  sqrt (((a.take dims).zipWith (fun x y => (x - y) * (x - y)) (b.take dims)).sum)

/-- `vdb_compute_distance(a, b, dims, metric)`: the metric dispatch. -/
def vdb_compute_distance (sqrt : α → α) (a b : List α) (dims : Nat)
    (metric : vdb_metric) : α :=
  match metric with
  | VDB_METRIC_COSINE => 1 - vdb_cosine_similarity sqrt a b dims
  | VDB_METRIC_EUCLIDEAN => vdb_euclidean_distance sqrt a b dims
  | VDB_METRIC_DOT_PRODUCT => -(vdb_dot_product a b dims)

end MetricEngine

section VectorStore

variable {α : Type}

/-- `vdb_create(dimensions, metric)`: `NULL` (here `none`) when
`dimensions == 0`, otherwise a fresh empty database with `count = 0`,
`capacity = 0` (allocation of the struct itself is assumed to succeed). -/
def vdb_create (dimensions : Nat) (metric : vdb_metric) :
    Option (vdb_database α) :=
  if dimensions = 0 then none
  else some { vectors := [], capacity := 0, dimensions := dimensions,
              metric := metric }

/-- `vdb_count(db)` (non-`NULL` database). -/
def vdb_count (db : vdb_database α) : Nat :=
  db.vectors.length

/-- `vdb_dimensions(db)` (non-`NULL` database). -/
def vdb_dimensions (db : vdb_database α) : Nat :=
  db.dimensions

/-- `vdb_add_vector(db, data, id, metadata)`.  A `NULL` `data` pointer is
`none` and yields `VDB_ERROR_NULL_POINTER`.  Otherwise the code grows the
backing array when full (`0 → 16`, else doubling), `memcpy`s exactly
`dimensions` floats out of the caller's buffer (undefined behaviour — the
outer `none` — if the buffer is shorter; no dimensionality check exists),
copies the id string if present, stores the metadata pointer as-is and
increments `count`.  The result pairs the returned `vdb_error` with the
database state after the call. -/
def vdb_add_vector (db : vdb_database α) (data : Option (List α))
    (id : Option String) (metadata : Option Nat) :
    Option (vdb_error × vdb_database α) :=
  match data with
  | none => some (VDB_ERROR_NULL_POINTER, db)
  | some d =>
    if d.length < db.dimensions then
      none
    else
      let db' : vdb_database α :=
        if db.capacity ≤ db.vectors.length then
          { db with capacity := if db.capacity = 0 then 16 else db.capacity * 2 }
        else db
      some (VDB_OK,
        { db' with vectors :=
            db'.vectors ++ [{ data := d.take db'.dimensions, id := id,
                              metadata := metadata }] })

/-- `vdb_get_vector(db, index, ...)`: `VDB_ERROR_INVALID_INDEX` when
`index ≥ count`, otherwise `VDB_OK` together with the record's data, id and
metadata (the three out-parameters). -/
def vdb_get_vector (db : vdb_database α) (index : Nat) :
    vdb_error × Option (List α × Option String × Option Nat) :=
  match db.vectors[index]? with
  | none => (VDB_ERROR_INVALID_INDEX, none)
  | some v => (VDB_OK, some (v.data, v.id, v.metadata))

/-- `vdb_remove_vector(db, index)`: `VDB_ERROR_INVALID_INDEX` (database
unchanged) when `index ≥ count`; otherwise frees the record and `memmove`s
every later record one slot down (`List.eraseIdx`), decrementing `count`.
`capacity` is untouched. -/
def vdb_remove_vector (db : vdb_database α) (index : Nat) :
    vdb_error × vdb_database α :=
  if db.vectors.length ≤ index then
    (VDB_ERROR_INVALID_INDEX, db)
  else
    (VDB_OK, { db with vectors := db.vectors.eraseIdx index })

end VectorStore

section SearchEngine

variable {α : Type} [LinearOrderedField α]

/-- `vdb_result_compare(a, b)`: the `qsort` comparator — compares on
`distance` only, returning `-1`/`0`/`1` as an `Int`. -/
def vdb_result_compare (ra rb : vdb_result α) : Int :=
  if ra.distance < rb.distance then -1
  else if rb.distance < ra.distance then 1
  else 0

/-- `vdb_search(db, query, k)`.  `NULL` (`none`) for a `NULL` query or
`k == 0` or an empty database; otherwise `k` is clamped to `count`, every
record is scored against the query, all candidates are sorted ascending by
distance (`qsort` with `vdb_result_compare`, modelled by a sort that agrees
with the comparator; tie order is unspecified in C) and the first `k`
results are returned. -/
def vdb_search (sqrt : α → α) (db : vdb_database α) (query : Option (List α))
    (k : Nat) : Option (List (vdb_result α)) :=
  match query with
  | none => none
  | some q =>
    if k = 0 then none
    else if db.vectors.length = 0 then none
    else
      let k' := min k db.vectors.length
      let all_results : List (vdb_result α) :=
        db.vectors.enum.map (fun iv =>
          { index := iv.1,
            distance := vdb_compute_distance sqrt q iv.2.data db.dimensions
              db.metric,
            id := iv.2.id, metadata := iv.2.metadata })
      let sorted := all_results.mergeSort
        (fun a b => decide (vdb_result_compare a b ≤ 0))
      some (sorted.take k')

end SearchEngine

section PersistenceCodec

variable {α : Type}

/-- One field element as written by a single `fwrite` item in `vdb_save`:
a 4-byte unsigned word, a `size_t` word, a metric ordinal, one float, or
one id byte.  Field widths are abstracted (values are exact). -/
inductive vdb_file_tok (α : Type) where
  | u32 (n : Nat)
  | usize (n : Nat)
  | metric (m : vdb_metric)
  | float (x : α)
  | char (c : Char)
  deriving DecidableEq, Repr

/-- The id length written by `vdb_save`: `strlen(id)` for a present id
(C strings have no interior NULs), `0` for `NULL`. -/
def vdb_id_len (id : Option String) : Nat :=
  match id with
  | none => 0
  | some s => s.length

/-- The id bytes written by `vdb_save` (nothing when `id_len == 0`, which
covers both `NULL` and the empty string). -/
def vdb_id_bytes (id : Option String) : List (vdb_file_tok α) :=
  match id with
  | none => []
  | some s => s.toList.map vdb_file_tok.char

/-- The token run `vdb_save` emits for one record: `dimensions` floats read
from the record's buffer, the 4-byte id length, then the id bytes. -/
def vdb_enc_record (dims : Nat) (v : vdb_vector α) : List (vdb_file_tok α) :=
  (v.data.take dims).map vdb_file_tok.float
    ++ [vdb_file_tok.u32 (vdb_id_len v.id)] ++ vdb_id_bytes v.id

/-- `vdb_save(db, filename)`: magic tag, `dimensions`, `count`, `metric`,
then each record in index order.  `fwrite` reads `dimensions` floats from
each record's buffer: a buffer shorter than `dimensions` is undefined
behaviour (`none`).  The file-system side (`fopen` failure) is not
modelled. -/
def vdb_save (db : vdb_database α) : Option (List (vdb_file_tok α)) :=
  if db.vectors.all (fun v => db.dimensions ≤ v.data.length) then
    some ([vdb_file_tok.u32 0x56444230, vdb_file_tok.usize db.dimensions,
           vdb_file_tok.usize db.vectors.length, vdb_file_tok.metric db.metric]
      ++ db.vectors.flatMap (vdb_enc_record db.dimensions))
  else none

/-- The `fread` of `dims` floats in `vdb_load`: consumes exactly `dims`
float tokens, failing on a short or ill-typed stream. -/
def vdb_read_floats : Nat → List (vdb_file_tok α) →
    Option (List α × List (vdb_file_tok α))
  | 0, ts => some ([], ts)
  | n + 1, vdb_file_tok.float x :: ts =>
    match vdb_read_floats n ts with
    | some (xs, rest) => some (x :: xs, rest)
    | none => none
  | _ + 1, _ => none

/-- The `fread` of `id_len` id bytes in `vdb_load`. -/
def vdb_read_chars : Nat → List (vdb_file_tok α) →
    Option (List Char × List (vdb_file_tok α))
  | 0, ts => some ([], ts)
  | n + 1, vdb_file_tok.char c :: ts =>
    match vdb_read_chars n ts with
    | some (cs, rest) => some (c :: cs, rest)
    | none => none
  | _ + 1, _ => none

/-- The record-reading loop of `vdb_load`: for each of the `count` records
announced by the header, read `dims` floats, a 4-byte id length, the id
bytes (a zero length yields a `NULL` id), and append via `vdb_add_vector`
with `NULL` metadata.  Any failed read (or failed add) fails the whole
load; trailing tokens after the last record are ignored, as trailing file
bytes are in C. -/
def vdb_load_records (dims : Nat) :
    Nat → vdb_database α → List (vdb_file_tok α) → Option (vdb_database α)
  | 0, db, _ => some db
  | n + 1, db, ts =>
    match vdb_read_floats dims ts with
    | none => none
    | some (data, ts₁) =>
      match ts₁ with
      | vdb_file_tok.u32 id_len :: ts₂ =>
        match vdb_read_chars id_len ts₂ with
        | none => none
        | some (cs, ts₃) =>
          let id : Option String :=
            if 0 < id_len then some (String.mk cs) else none
          match vdb_add_vector db (some data) id none with
          | some (VDB_OK, db') => vdb_load_records dims n db' ts₃
          | _ => none
      | _ => none

/-- `vdb_load(filename)`: validates the magic tag first, then reads
`dimensions`, `count` and `metric` (any short read fails), constructs a
fresh database via `vdb_create` (which rejects `dimensions == 0`) and runs
the record loop.  Every failure path returns `none` after releasing any
partially constructed database; no partial database is ever returned. -/
def vdb_load (file : List (vdb_file_tok α)) : Option (vdb_database α) :=
  match file with
  | vdb_file_tok.u32 magic :: rest =>
    if magic = 0x56444230 then
      match rest with
      | vdb_file_tok.usize dimensions :: vdb_file_tok.usize count ::
          vdb_file_tok.metric metric :: ts =>
        match vdb_create (α := α) dimensions metric with
        | none => none
        | some db => vdb_load_records dimensions count db ts
      | _ => none
    else none
  | _ => none

end PersistenceCodec

/-! ## Helper lemmas about the store operations -/

section StoreLemmas

variable {α : Type}

/-- Concrete one-dimensional euclidean database used by witnesses. -/
def dbDim1 : vdb_database ℚ :=
  { vectors := [], capacity := 0, dimensions := 1,
    metric := VDB_METRIC_EUCLIDEAN }

theorem vdb_add_vector_some (db : vdb_database α) (d : List α)
    (id : Option String) (md : Option Nat) (h : db.dimensions ≤ d.length) :
    vdb_add_vector db (some d) id md =
      some (VDB_OK,
        { vectors := db.vectors ++
            [{ data := d.take db.dimensions, id := id, metadata := md }],
          capacity := if db.capacity ≤ db.vectors.length then
              (if db.capacity = 0 then 16 else db.capacity * 2)
            else db.capacity,
          dimensions := db.dimensions, metric := db.metric }) := by
  simp only [vdb_add_vector]
  rw [if_neg (not_lt.2 h)]
  split <;> rfl

theorem vdb_add_vector_ub (db : vdb_database α) (d : List α)
    (id : Option String) (md : Option Nat) (h : d.length < db.dimensions) :
    vdb_add_vector db (some d) id md = none := by
  simp only [vdb_add_vector]
  rw [if_pos h]

end StoreLemmas

/-! ## The claims -/

/-- **C10**: for every metric, `vdb_create(0, metric)` returns `NULL`, and
for every `dimensions > 0` it returns an empty database with `count = 0`,
`capacity = 0` and the given dimensions and metric. -/
theorem vdb_create_spec {α : Type} (d : Nat) (metric : vdb_metric) :
    vdb_create (α := α) 0 metric = none ∧
    (0 < d → ∃ db : vdb_database α, vdb_create d metric = some db ∧
      vdb_count db = 0 ∧ db.capacity = 0 ∧ db.dimensions = d ∧
      db.metric = metric) := by
  refine ⟨rfl, fun hd => ?_⟩
  unfold vdb_create
  rw [if_neg (by omega)]
  exact ⟨_, rfl, rfl, rfl, rfl, rfl⟩

theorem vdb_create_spec_witness :
    0 < 3 ∧ ∃ db : vdb_database ℚ,
      vdb_create 3 VDB_METRIC_COSINE = some db ∧
      vdb_count db = 0 ∧ db.capacity = 0 ∧ db.dimensions = 3 ∧
      db.metric = VDB_METRIC_COSINE :=
  ⟨by decide, (vdb_create_spec 3 VDB_METRIC_COSINE).2 (by decide)⟩

/-- **C4 counterexample**: inserting the length-2 vector `[5, 7]` into an
empty 1-dimensional database does *not* fail with
`VDB_ERROR_INVALID_DIMENSIONS`: it returns `VDB_OK`, silently truncates the
vector to its first component, and increments `count` from 0 to 1.
(`vdb_add_vector` contains no dimensionality check at all; the error code
`VDB_ERROR_INVALID_DIMENSIONS` is declared but never returned.) -/
theorem vdb_add_vector_wrong_length_succeeds :
    ([(5 : ℚ), 7].length ≠ vdb_dimensions dbDim1) ∧
    vdb_add_vector dbDim1 (some [(5 : ℚ), 7]) none none =
      some (VDB_OK,
        { vectors := [{ data := [(5 : ℚ)], id := none, metadata := none }],
          capacity := 16, dimensions := 1,
          metric := VDB_METRIC_EUCLIDEAN }) ∧
    vdb_count dbDim1 = 0 := by
  refine ⟨by decide, ?_, rfl⟩
  decide

/-- **C4 (amended)**: `vdb_add_vector` performs no dimensionality check and
never returns `VDB_ERROR_INVALID_DIMENSIONS`.  Given a buffer holding at
least `dimensions` values it succeeds with `VDB_OK`, copying exactly the
first `dimensions` values (a longer vector is silently truncated) and
incrementing `count`; a buffer shorter than `dimensions` is undefined
behaviour (the out-of-bounds `memcpy`), modelled as `none`. -/
theorem vdb_add_vector_no_dimension_check {α : Type}
    (db : vdb_database α) (data : List α) (id : Option String)
    (md : Option Nat) :
    (db.dimensions ≤ data.length →
      ∃ db', vdb_add_vector db (some data) id md = some (VDB_OK, db') ∧
        db'.vectors = db.vectors ++
          [{ data := data.take db.dimensions, id := id, metadata := md }] ∧
        vdb_count db' = vdb_count db + 1) ∧
    (data.length < db.dimensions →
      vdb_add_vector db (some data) id md = none) := by
  constructor
  · intro h
    refine ⟨_, vdb_add_vector_some db data id md h, rfl, ?_⟩
    simp [vdb_count]
  · exact vdb_add_vector_ub db data id md

theorem vdb_add_vector_no_dimension_check_witness :
    dbDim1.dimensions ≤ [(5 : ℚ), 7].length ∧
    (∃ db', vdb_add_vector dbDim1 (some [(5 : ℚ), 7]) none none =
        some (VDB_OK, db') ∧
      db'.vectors = dbDim1.vectors ++
        [{ data := [(5 : ℚ), 7].take dbDim1.dimensions, id := none,
           metadata := none }] ∧
      vdb_count db' = vdb_count dbDim1 + 1) ∧
    ([(5 : ℚ)].length < dbDim1.dimensions →
      vdb_add_vector dbDim1 (some [(5 : ℚ)]) none none = none) :=
  ⟨by decide,
    (vdb_add_vector_no_dimension_check dbDim1 [(5 : ℚ), 7] none none).1
      (by decide),
    (vdb_add_vector_no_dimension_check dbDim1 [(5 : ℚ)] none none).2⟩

/-- **C8**: a successful insert of a `dimensions`-length vector appends a
record holding copies of the vector, the identifier and the metadata at
index `count`, increments `count` by exactly one, and leaves every
previously stored record's index and contents unchanged. -/
theorem vdb_add_vector_append {α : Type} (db : vdb_database α)
    (data : List α) (id : Option String) (md : Option Nat)
    (h : data.length = db.dimensions) :
    ∃ db', vdb_add_vector db (some data) id md = some (VDB_OK, db') ∧
      vdb_count db' = vdb_count db + 1 ∧
      vdb_get_vector db' (vdb_count db) = (VDB_OK, some (data, id, md)) ∧
      (∀ j, j < vdb_count db → vdb_get_vector db' j = vdb_get_vector db j) := by
  refine ⟨_, vdb_add_vector_some db data id md h.ge, ?_, ?_, ?_⟩
  · simp [vdb_count]
  · unfold vdb_get_vector vdb_count
    rw [List.getElem?_append_right le_rfl]
    simp [← h, List.take_length]
  · intro j hj
    unfold vdb_get_vector
    rw [List.getElem?_append_left hj]

theorem vdb_add_vector_append_witness :
    ([(5 : ℚ)].length = dbDim1.dimensions) ∧
    ∃ db', vdb_add_vector dbDim1 (some [(5 : ℚ)]) (some "a") (some 7) =
        some (VDB_OK, db') ∧
      vdb_count db' = vdb_count dbDim1 + 1 ∧
      vdb_get_vector db' (vdb_count dbDim1) =
        (VDB_OK, some ([(5 : ℚ)], some "a", some 7)) ∧
      (∀ j, j < vdb_count dbDim1 →
        vdb_get_vector db' j = vdb_get_vector dbDim1 j) :=
  ⟨by decide, vdb_add_vector_append dbDim1 [(5 : ℚ)] (some "a") (some 7)
    (by decide)⟩

/-- Concrete two-record database used by witnesses. -/
def dbRem : vdb_database ℚ :=
  { vectors := [{ data := [2], id := some "a", metadata := none },
                { data := [9], id := none, metadata := some 3 }],
    capacity := 16, dimensions := 1, metric := VDB_METRIC_EUCLIDEAN }

/-- **C5**: for `i < count`, `vdb_remove_vector(db, i)` succeeds, shifts
every record previously at an index greater than `i` down by one (so a
subsequent `vdb_get_vector` at `j ≥ i` returns what was previously at
`j + 1`, and records below `i` are untouched) and decrements `count`;
for `i ≥ count` it fails with `VDB_ERROR_INVALID_INDEX` and leaves the
database unchanged. -/
theorem vdb_remove_vector_spec {α : Type} (db : vdb_database α) (i : Nat) :
    (i < vdb_count db →
      ∃ db', vdb_remove_vector db i = (VDB_OK, db') ∧
        vdb_count db' = vdb_count db - 1 ∧
        (∀ j, j < i → vdb_get_vector db' j = vdb_get_vector db j) ∧
        (∀ j, i ≤ j → vdb_get_vector db' j = vdb_get_vector db (j + 1))) ∧
    (vdb_count db ≤ i →
      vdb_remove_vector db i = (VDB_ERROR_INVALID_INDEX, db)) := by
  unfold vdb_count vdb_remove_vector
  constructor
  · intro hi
    rw [if_neg (not_le.2 hi)]
    refine ⟨{ db with vectors := db.vectors.eraseIdx i }, rfl, ?_, ?_, ?_⟩
    · simp [List.length_eraseIdx, hi]
    · intro j hj
      unfold vdb_get_vector
      rw [show ({ db with vectors := db.vectors.eraseIdx i } :
            vdb_database α).vectors = db.vectors.eraseIdx i from rfl,
          List.getElem?_eraseIdx, if_pos hj]
    · intro j hj
      unfold vdb_get_vector
      rw [show ({ db with vectors := db.vectors.eraseIdx i } :
            vdb_database α).vectors = db.vectors.eraseIdx i from rfl,
          List.getElem?_eraseIdx, if_neg (not_lt.2 hj)]
  · intro hi
    rw [if_pos hi]

theorem vdb_remove_vector_spec_witness :
    (0 < vdb_count dbRem ∧
      ∃ db', vdb_remove_vector dbRem 0 = (VDB_OK, db') ∧
        vdb_count db' = vdb_count dbRem - 1 ∧
        (∀ j, j < 0 → vdb_get_vector db' j = vdb_get_vector dbRem j) ∧
        (∀ j, 0 ≤ j → vdb_get_vector db' j = vdb_get_vector dbRem (j + 1))) ∧
    (vdb_count dbRem ≤ 2 →
      vdb_remove_vector dbRem 2 = (VDB_ERROR_INVALID_INDEX, dbRem)) :=
  ⟨⟨by decide, (vdb_remove_vector_spec dbRem 0).1 (by decide)⟩,
    (vdb_remove_vector_spec dbRem 2).2⟩

/-- The database states reachable through the public API: a fresh
`vdb_create`, followed by any sequence of (defined-behaviour)
`vdb_add_vector` and `vdb_remove_vector` calls. -/
inductive vdb_reachable {α : Type} : vdb_database α → Prop where
  | create (d : Nat) (m : vdb_metric) (db : vdb_database α) :
      vdb_create d m = some db → vdb_reachable db
  | add (db : vdb_database α) (data : Option (List α)) (id : Option String)
      (md : Option Nat) (e : vdb_error) (db' : vdb_database α) :
      vdb_reachable db → vdb_add_vector db data id md = some (e, db') →
      vdb_reachable db'
  | remove (db : vdb_database α) (i : Nat) : vdb_reachable db →
      vdb_reachable (vdb_remove_vector db i).2

/-- **C9**: `count ≤ capacity` holds in every reachable database state;
when `vdb_add_vector` finds the store full it grows the capacity
geometrically (`0 → 16`, otherwise doubling); and `vdb_remove_vector`
never changes the capacity. -/
theorem vdb_capacity_spec {α : Type} :
    (∀ db : vdb_database α, vdb_reachable db →
      vdb_count db ≤ db.capacity) ∧
    (∀ (db : vdb_database α) (data : List α) (id : Option String)
      (md : Option Nat) (e : vdb_error) (db' : vdb_database α),
      db.capacity ≤ vdb_count db →
      vdb_add_vector db (some data) id md = some (e, db') →
      db'.capacity = if db.capacity = 0 then 16 else db.capacity * 2) ∧
    (∀ (db : vdb_database α) (i : Nat),
      ((vdb_remove_vector db i).2).capacity = db.capacity) := by
  have hadd : ∀ (db : vdb_database α) (data : Option (List α))
      (id : Option String) (md : Option Nat) (e : vdb_error)
      (db' : vdb_database α),
      vdb_add_vector db data id md = some (e, db') →
      (db' = db ∨
        (vdb_count db' = vdb_count db + 1 ∧
          db'.capacity = if db.capacity ≤ vdb_count db then
              (if db.capacity = 0 then 16 else db.capacity * 2)
            else db.capacity)) := by
    intro db data id md e db' hcall
    match data with
    | none =>
      simp only [vdb_add_vector, Option.some.injEq, Prod.mk.injEq] at hcall
      exact Or.inl hcall.2.symm
    | some d =>
      by_cases hlen : d.length < db.dimensions
      · rw [vdb_add_vector_ub db d id md hlen] at hcall
        exact absurd hcall (by simp)
      · rw [vdb_add_vector_some db d id md (not_lt.1 hlen)] at hcall
        simp only [Option.some.injEq, Prod.mk.injEq] at hcall
        refine Or.inr ?_
        rw [← hcall.2]
        exact ⟨by simp [vdb_count], rfl⟩
  have hrem : ∀ (db : vdb_database α) (i : Nat),
      ((vdb_remove_vector db i).2).capacity = db.capacity ∧
      vdb_count (vdb_remove_vector db i).2 ≤ vdb_count db := by
    intro db i
    unfold vdb_remove_vector
    split
    · exact ⟨rfl, le_rfl⟩
    · rename_i h
      refine ⟨rfl, ?_⟩
      simp only [vdb_count, List.length_eraseIdx, if_pos (not_le.1 h)]
      omega
  refine ⟨?_, ?_, fun db i => (hrem db i).1⟩
  · intro db hdb
    induction hdb with
    | create d m db hc =>
      unfold vdb_create at hc
      split at hc
      · exact absurd hc (by simp)
      · simp only [Option.some.injEq] at hc
        rw [← hc]
        exact le_rfl
    | add db data id md e db' _ hcall ih =>
      rcases hadd db data id md e db' hcall with heq | ⟨hcnt, hcap⟩
      · rw [heq]; exact ih
      · rw [hcnt, hcap]
        split
        · split <;> omega
        · omega
    | remove db i _ ih =>
      rcases hrem db i with ⟨hcap, hcnt⟩
      rw [hcap]
      exact hcnt.trans ih
  · intro db data id md e db' hfull hcall
    unfold vdb_count at hfull
    by_cases hlen : data.length < db.dimensions
    · rw [vdb_add_vector_ub db data id md hlen] at hcall
      exact absurd hcall (by simp)
    · rw [vdb_add_vector_some db data id md (not_lt.1 hlen)] at hcall
      simp only [Option.some.injEq, Prod.mk.injEq] at hcall
      rw [← hcall.2]
      exact if_pos hfull

theorem vdb_capacity_spec_witness :
    (vdb_reachable dbDim1 ∧ vdb_count dbDim1 ≤ dbDim1.capacity) ∧
    (dbDim1.capacity ≤ vdb_count dbDim1 ∧
      vdb_add_vector dbDim1 (some [(5 : ℚ)]) none none =
        some (VDB_OK,
          { vectors := [{ data := [(5 : ℚ)], id := none, metadata := none }],
            capacity := 16, dimensions := 1,
            metric := VDB_METRIC_EUCLIDEAN }) ∧
      (16 : Nat) = if dbDim1.capacity = 0 then 16 else dbDim1.capacity * 2) ∧
    ((vdb_remove_vector dbDim1 0).2).capacity = dbDim1.capacity := by
  have hreach : vdb_reachable dbDim1 :=
    vdb_reachable.create 1 VDB_METRIC_EUCLIDEAN dbDim1 rfl
  refine ⟨⟨hreach, (vdb_capacity_spec (α := ℚ)).1 dbDim1 hreach⟩,
    ⟨by decide, by decide,
      (vdb_capacity_spec (α := ℚ)).2.1 dbDim1 [(5 : ℚ)] none none VDB_OK
        { vectors := [{ data := [(5 : ℚ)], id := none, metadata := none }],
          capacity := 16, dimensions := 1,
          metric := VDB_METRIC_EUCLIDEAN } (by decide) (by decide)⟩,
    (vdb_capacity_spec (α := ℚ)).2.2 dbDim1 0⟩

/-! ## Search lemmas -/

theorem vdb_search_some {α : Type} [LinearOrderedField α] (sqrt : α → α)
    (db : vdb_database α) (q : List α) (k : Nat) (hk : 0 < k)
    (hn : 0 < db.vectors.length) :
    vdb_search sqrt db (some q) k =
      some (((db.vectors.enum.map (fun iv =>
          { index := iv.1,
            distance := vdb_compute_distance sqrt q iv.2.data db.dimensions
              db.metric,
            id := iv.2.id,
            metadata := iv.2.metadata : vdb_result α })).mergeSort
        (fun a b => decide (vdb_result_compare a b ≤ 0))).take
          (min k db.vectors.length)) := by
  simp only [vdb_search]
  rw [if_neg hk.ne', if_neg hn.ne']

/-- **C6**: `vdb_search` on an empty database returns `NULL`, `vdb_search`
with `k = 0` returns `NULL`, and on a non-empty database with `k > count`
it returns exactly `count` results. -/
theorem vdb_search_degenerate {α : Type} [LinearOrderedField α]
    (sqrt : α → α) (db : vdb_database α) (q : Option (List α))
    (q' : List α) (k : Nat) :
    (vdb_count db = 0 → vdb_search sqrt db q k = none) ∧
    (vdb_search sqrt db q 0 = none) ∧
    (1 ≤ vdb_count db → vdb_count db < k →
      ∃ rs, vdb_search sqrt db (some q') k = some rs ∧
        rs.length = vdb_count db) := by
  refine ⟨?_, ?_, ?_⟩
  · intro h
    unfold vdb_count at h
    match q with
    | none => rfl
    | some q =>
      simp only [vdb_search]
      by_cases hk : k = 0
      · rw [if_pos hk]
      · rw [if_neg hk, if_pos h]
  · match q with
    | none => rfl
    | some q =>
      simp [vdb_search]
  · intro h1 hk
    rw [vdb_search_some sqrt db q' k (by omega) h1]
    refine ⟨_, rfl, ?_⟩
    simp only [List.length_take, List.length_mergeSort, List.length_map,
      List.enum_length, vdb_count] at *
    omega

theorem vdb_search_degenerate_witness :
    (vdb_count dbDim1 = 0 →
      vdb_search (fun x => x) dbDim1 (some [(3 : ℚ)]) 5 = none) ∧
    (vdb_search (fun x => x) dbRem (some [(3 : ℚ)]) 0 = none) ∧
    (1 ≤ vdb_count dbRem ∧ vdb_count dbRem < 5 ∧
      ∃ rs, vdb_search (fun x => x) dbRem (some [(3 : ℚ)]) 5 = some rs ∧
        rs.length = vdb_count dbRem) :=
  ⟨(vdb_search_degenerate (fun x => x) dbDim1 (some [(3 : ℚ)]) [(3 : ℚ)] 5).1,
    (vdb_search_degenerate (fun x => x) dbRem (some [(3 : ℚ)]) [(3 : ℚ)] 5).2.1,
    by decide, by decide,
    (vdb_search_degenerate (fun x => x) dbRem (some [(3 : ℚ)]) [(3 : ℚ)] 5).2.2
      (by decide) (by decide)⟩

/-- **C3 counterexample**: the claim asserts that under the cosine metric
the distance from the zero vector to itself is `0` "by the zero-magnitude
policy"; in the code the policy makes `vdb_cosine_similarity` return `0`,
so the cosine *distance* is `1 - 0 = 1`, not `0`. -/
theorem vdb_cosine_distance_zero_vector :
    vdb_compute_distance Real.sqrt [(0 : ℝ)] [(0 : ℝ)] 1
      VDB_METRIC_COSINE ≠ 0 := by
  have h0 : vdb_magnitude Real.sqrt [(0 : ℝ)] 1 = 0 := by
    simp [vdb_magnitude]
  simp [vdb_compute_distance, vdb_cosine_similarity, h0]

/-- **C3 (amended)**: under the cosine metric, the distance from a vector
to itself is `0` whenever its magnitude is nonzero; when the magnitude is
exactly zero the zero-magnitude policy makes `vdb_cosine_similarity`
return `0`, so the distance is `1`.  Under the euclidean metric the
distance between two identical vectors is `0`. -/
theorem vdb_metric_identity (v : List ℝ) (dims : Nat) :
    (vdb_magnitude Real.sqrt v dims ≠ 0 →
      vdb_compute_distance Real.sqrt v v dims VDB_METRIC_COSINE = 0) ∧
    (vdb_magnitude Real.sqrt v dims = 0 →
      vdb_compute_distance Real.sqrt v v dims VDB_METRIC_COSINE = 1) ∧
    vdb_compute_distance Real.sqrt v v dims VDB_METRIC_EUCLIDEAN = 0 := by
  have hs : 0 ≤ ((v.take dims).map (fun x => x * x)).sum := by
    refine List.sum_nonneg ?_
    intro x hx
    rcases List.mem_map.1 hx with ⟨y, _, rfl⟩
    exact mul_self_nonneg y
  have hdot : vdb_dot_product v v dims =
      ((v.take dims).map (fun x => x * x)).sum := by
    unfold vdb_dot_product
    rw [List.zipWith_same]
  refine ⟨?_, ?_, ?_⟩
  · intro h
    have hsne : ((v.take dims).map (fun x => x * x)).sum ≠ 0 := by
      intro h'
      exact h (by unfold vdb_magnitude; rw [h', Real.sqrt_zero])
    simp only [vdb_compute_distance, vdb_cosine_similarity]
    rw [if_neg (by push_neg; exact ⟨h, h⟩), hdot]
    unfold vdb_magnitude
    rw [Real.mul_self_sqrt hs, div_self hsne, sub_self]
  · intro h
    simp only [vdb_compute_distance, vdb_cosine_similarity]
    rw [if_pos (Or.inl h), sub_zero]
  · simp only [vdb_compute_distance, vdb_euclidean_distance]
    rw [List.zipWith_same]
    simp

theorem vdb_metric_identity_witness :
    (vdb_magnitude Real.sqrt [(1 : ℝ)] 1 ≠ 0 ∧
      vdb_compute_distance Real.sqrt [(1 : ℝ)] [(1 : ℝ)] 1
        VDB_METRIC_COSINE = 0) ∧
    (vdb_magnitude Real.sqrt [(0 : ℝ)] 1 = 0 ∧
      vdb_compute_distance Real.sqrt [(0 : ℝ)] [(0 : ℝ)] 1
        VDB_METRIC_COSINE = 1) := by
  have h1 : vdb_magnitude Real.sqrt [(1 : ℝ)] 1 ≠ 0 := by
    simp [vdb_magnitude]
  have h0 : vdb_magnitude Real.sqrt [(0 : ℝ)] 1 = 0 := by
    simp [vdb_magnitude]
  exact ⟨⟨h1, (vdb_metric_identity [(1 : ℝ)] 1).1 h1⟩,
    ⟨h0, (vdb_metric_identity [(0 : ℝ)] 1).2.1 h0⟩⟩

theorem vdb_result_compare_le_iff {α : Type} [LinearOrderedField α]
    (a b : vdb_result α) :
    vdb_result_compare a b ≤ 0 ↔ a.distance ≤ b.distance := by
  unfold vdb_result_compare
  rcases lt_trichotomy a.distance b.distance with h | h | h
  · rw [if_pos h]
    simp [h.le]
  · rw [if_neg (by rw [h]; exact lt_irrefl _),
      if_neg (by rw [h]; exact lt_irrefl _)]
    simp [h.le]
  · rw [if_neg (not_lt.2 h.le), if_pos h]
    simp [not_le.2 h]

theorem vdb_mergeSort_le_sorted {α : Type} [LinearOrderedField α]
    (l : List α) :
    List.Sorted (· ≤ ·) (l.mergeSort (fun a b => decide (a ≤ b))) := by
  refine (List.sorted_mergeSort ?_ ?_ l).imp (fun h => of_decide_eq_true h)
  · intro a b c hab hbc
    rw [decide_eq_true_eq] at *
    exact hab.trans hbc
  · intro a b
    rcases le_total a b with h | h
    · rw [Bool.or_eq_true]
      exact Or.inl (decide_eq_true h)
    · rw [Bool.or_eq_true]
      exact Or.inr (decide_eq_true h)

theorem vdb_mergeSort_map_distance {α : Type} [LinearOrderedField α]
    (l : List (vdb_result α)) :
    (l.mergeSort (fun a b => decide (vdb_result_compare a b ≤ 0))).map
        (fun r => r.distance) =
      (l.map (fun r => r.distance)).mergeSort (fun a b => decide (a ≤ b)) := by
  have hiff : ∀ a b : vdb_result α,
      (decide (vdb_result_compare a b ≤ 0) = true) ↔
        a.distance ≤ b.distance := by
    intro a b
    rw [decide_eq_true_eq]
    exact vdb_result_compare_le_iff a b
  haveI : IsAntisymm α (· ≤ ·) := ⟨fun _ _ => le_antisymm⟩
  refine List.eq_of_perm_of_sorted (r := (· ≤ ·)) ?_ ?_ ?_
  · exact ((List.mergeSort_perm l _).map _).trans
      (List.mergeSort_perm (l.map (fun r => r.distance)) _).symm
  · refine List.pairwise_map.mpr ?_
    refine (List.sorted_mergeSort ?_ ?_ l).imp (fun h => (hiff _ _).1 h)
    · intro a b c hab hbc
      rw [hiff] at *
      exact hab.trans hbc
    · intro a b
      rcases le_total a.distance b.distance with h | h
      · rw [Bool.or_eq_true]
        exact Or.inl ((hiff a b).2 h)
      · rw [Bool.or_eq_true]
        exact Or.inr ((hiff b a).2 h)
  · exact vdb_mergeSort_le_sorted _

/-- The list of distances from the query `q` to every stored vector, in
storage order, under the database's metric — the brute-force recomputation
the spec's P3 compares against. -/
def vdb_all_distances {α : Type} [LinearOrderedField α] (sqrt : α → α)
    (db : vdb_database α) (q : List α) : List α :=
  db.vectors.map (fun v =>
    vdb_compute_distance sqrt q v.data db.dimensions db.metric)

/-- The `k` smallest values of `l`, with multiplicity: the first `k`
entries of the ascending sort of `l`. -/
def vdb_k_smallest {α : Type} [LinearOrderedField α] (l : List α)
    (k : Nat) : List α :=
  (l.mergeSort (fun a b => decide (a ≤ b))).take k

/-- **C1**: for every database with `count ≥ 1`, every query of the
database's dimensionality and every `k` with `1 ≤ k ≤ count`,
`vdb_search` succeeds and returns a result list whose distances are
non-decreasing, whose length is exactly `min k count`, and whose distance
list equals the `k` smallest values (with multiplicity) among the
distances from the query to every stored vector under the database's
metric. -/
theorem vdb_search_correct {α : Type} [LinearOrderedField α] (sqrt : α → α)
    (db : vdb_database α) (q : List α) (k : Nat)
    (_hq : q.length = db.dimensions) (hn : 1 ≤ vdb_count db)
    (hk1 : 1 ≤ k) (hkn : k ≤ vdb_count db) :
    ∃ rs, vdb_search sqrt db (some q) k = some rs ∧
      rs.length = min k (vdb_count db) ∧
      List.Sorted (· ≤ ·) (rs.map (fun r => r.distance)) ∧
      rs.map (fun r => r.distance) =
        vdb_k_smallest (vdb_all_distances sqrt db q) k := by
  unfold vdb_count at hn hkn ⊢
  have hall : (db.vectors.enum.map (fun iv =>
      { index := iv.1,
        distance := vdb_compute_distance sqrt q iv.2.data db.dimensions
          db.metric,
        id := iv.2.id,
        metadata := iv.2.metadata : vdb_result α })).map
          (fun r => r.distance) = vdb_all_distances sqrt db q := by
    unfold vdb_all_distances
    conv_rhs => rw [← List.enum_map_snd db.vectors]
    rw [List.map_map, List.map_map]
    rfl
  rw [vdb_search_some sqrt db q k (by omega) (by omega)]
  refine ⟨_, rfl, ?_, ?_, ?_⟩
  · simp only [List.length_take, List.length_mergeSort, List.length_map,
      List.enum_length]
    omega
  · rw [List.map_take, vdb_mergeSort_map_distance]
    exact List.Pairwise.sublist (List.take_sublist _ _)
      (vdb_mergeSort_le_sorted _)
  · rw [List.map_take, vdb_mergeSort_map_distance, hall]
    unfold vdb_k_smallest
    rw [min_eq_left hkn]

theorem vdb_search_correct_witness :
    ([(3 : ℚ)].length = dbRem.dimensions ∧ 1 ≤ vdb_count dbRem ∧
      (1 : Nat) ≤ 1 ∧ 1 ≤ vdb_count dbRem) ∧
    ∃ rs, vdb_search (fun x => x) dbRem (some [(3 : ℚ)]) 1 = some rs ∧
      rs.length = min 1 (vdb_count dbRem) ∧
      List.Sorted (· ≤ ·) (rs.map (fun r => r.distance)) ∧
      rs.map (fun r => r.distance) =
        vdb_k_smallest (vdb_all_distances (fun x => x) dbRem [(3 : ℚ)]) 1 :=
  ⟨⟨by decide, by decide, by decide, by decide⟩,
    vdb_search_correct (fun x => x) dbRem [(3 : ℚ)] 1 (by decide) (by decide)
      (by decide) (by decide)⟩

/-! ## Persistence lemmas -/

/-- How `vdb_load` reconstructs a saved identifier: a present identifier of
positive length survives, while both `NULL` and the empty string are saved
with `id_len = 0` and reload as `NULL`. -/
def vdb_norm_id (id : Option String) : Option String :=
  match id with
  | none => none
  | some s => if 0 < s.length then some s else none

theorem vdb_read_floats_encode {α : Type} (xs : List α)
    (ts : List (vdb_file_tok α)) :
    vdb_read_floats xs.length (xs.map vdb_file_tok.float ++ ts) =
      some (xs, ts) := by
  induction xs with
  | nil => rfl
  | cons x xs ih => simp [vdb_read_floats, ih]

theorem vdb_read_chars_encode {α : Type} (cs : List Char)
    (ts : List (vdb_file_tok α)) :
    vdb_read_chars cs.length (cs.map vdb_file_tok.char ++ ts) =
      some (cs, ts) := by
  induction cs with
  | nil => rfl
  | cons c cs ih => simp [vdb_read_chars, ih]

theorem vdb_read_floats_short {α : Type} (n : Nat) (xs : List α)
    (h : xs.length < n) :
    vdb_read_floats n (xs.map vdb_file_tok.float) = none := by
  induction xs generalizing n with
  | nil =>
    match n, h with
    | n + 1, _ => rfl
  | cons x xs ih =>
    simp only [List.length_cons] at h
    match n, h with
    | n + 1, h => simp [vdb_read_floats, ih n (by omega)]

theorem vdb_read_chars_short {α : Type} (n : Nat) (cs : List Char)
    (h : cs.length < n) :
    vdb_read_chars n (cs.map (vdb_file_tok.char (α := α))) = none := by
  induction cs generalizing n with
  | nil =>
    match n, h with
    | n + 1, _ => rfl
  | cons c cs ih =>
    simp only [List.length_cons] at h
    match n, h with
    | n + 1, h => simp [vdb_read_chars, ih n (by omega)]

theorem vdb_prefix_split {α : Type} {p A B : List α} (h : p <+: A ++ B) :
    p <+: A ∨ ∃ q, p = A ++ q ∧ q <+: B := by
  induction A generalizing p with
  | nil => exact Or.inr ⟨p, rfl, h⟩
  | cons a A ih =>
    match p with
    | [] => exact Or.inl (by simp)
    | x :: p' =>
      rw [List.cons_append, List.cons_prefix_cons] at h
      obtain ⟨rfl, h'⟩ := h
      rcases ih h' with h'' | ⟨q, rfl, hq⟩
      · exact Or.inl (List.cons_prefix_cons.mpr ⟨rfl, h''⟩)
      · exact Or.inr ⟨q, by simp, hq⟩

/-- Parsing one record off the front of the stream: on a well-formed
record encoding, `vdb_load_records` consumes it, appends the decoded
record via `vdb_add_vector`, and continues on the remainder. -/
theorem vdb_load_records_cons {α : Type} (dims : Nat) (v : vdb_vector α)
    (db : vdb_database α) (hv : dims ≤ v.data.length)
    (hdb : db.dimensions = dims) (n : Nat) (ts : List (vdb_file_tok α)) :
    ∃ db',
      vdb_load_records dims (n + 1) db (vdb_enc_record dims v ++ ts) =
        vdb_load_records dims n db' ts ∧
      db'.vectors = db.vectors ++
        [{ data := v.data.take dims, id := vdb_norm_id v.id,
           metadata := none }] ∧
      db'.dimensions = dims ∧ db'.metric = db.metric := by
  subst hdb
  obtain ⟨vd, vid, vmd⟩ := v
  dsimp only at hv ⊢
  have htake : (vd.take db.dimensions).length = db.dimensions := by
    rw [List.length_take]
    omega
  have hnested : List.take db.dimensions (List.take db.dimensions vd) =
      List.take db.dimensions vd :=
    List.take_of_length_le htake.le
  cases vid with
  | none =>
    have hadd := vdb_add_vector_some db (vd.take db.dimensions) none none
      htake.ge
    rw [hnested] at hadd
    refine ⟨{ vectors := db.vectors ++
                [{ data := vd.take db.dimensions, id := vdb_norm_id none,
                   metadata := none }],
              capacity := if db.capacity ≤ db.vectors.length then
                  (if db.capacity = 0 then 16 else db.capacity * 2)
                else db.capacity,
              dimensions := db.dimensions,
              metric := db.metric }, ?_, rfl, rfl, rfl⟩
    dsimp only [vdb_enc_record, vdb_id_len, vdb_id_bytes]
    rw [List.append_nil, List.append_assoc, List.singleton_append]
    simp only [vdb_load_records]
    have hf := vdb_read_floats_encode (vd.take db.dimensions)
      (vdb_file_tok.u32 0 :: ts)
    rw [htake] at hf
    rw [hf]
    dsimp only
    simp only [vdb_read_chars]
    rw [if_neg (lt_irrefl 0), hadd]
    rfl
  | some s =>
    have hadd := vdb_add_vector_some db (vd.take db.dimensions)
      (vdb_norm_id (some s)) none htake.ge
    rw [hnested] at hadd
    refine ⟨{ vectors := db.vectors ++
                [{ data := vd.take db.dimensions,
                   id := vdb_norm_id (some s),
                   metadata := none }],
              capacity := if db.capacity ≤ db.vectors.length then
                  (if db.capacity = 0 then 16 else db.capacity * 2)
                else db.capacity,
              dimensions := db.dimensions,
              metric := db.metric }, ?_, rfl, rfl, rfl⟩
    dsimp only [vdb_enc_record, vdb_id_len, vdb_id_bytes]
    rw [List.append_assoc, List.append_assoc, List.singleton_append]
    simp only [vdb_load_records]
    have hf := vdb_read_floats_encode (vd.take db.dimensions)
      (vdb_file_tok.u32 s.length :: (s.toList.map vdb_file_tok.char ++ ts))
    rw [htake] at hf
    rw [hf]
    dsimp only
    have hc := vdb_read_chars_encode (α := α) s.toList ts
    rw [show s.toList.length = s.length from rfl] at hc
    rw [hc]
    dsimp only
    rw [show (if 0 < s.length then some (String.mk s.toList) else none) =
      vdb_norm_id (some s) from rfl]
    rw [hadd]

/-- Parsing the full encoding of `recs` (plus any trailing tokens)
succeeds and appends the decoded records. -/
theorem vdb_load_records_encode {α : Type} (dims : Nat)
    (recs : List (vdb_vector α)) (db : vdb_database α)
    (ts : List (vdb_file_tok α))
    (hwf : ∀ v ∈ recs, dims ≤ v.data.length)
    (hdb : db.dimensions = dims) :
    ∃ db', vdb_load_records dims recs.length db
        (recs.flatMap (vdb_enc_record dims) ++ ts) = some db' ∧
      db'.vectors = db.vectors ++ recs.map (fun v =>
        { data := v.data.take dims, id := vdb_norm_id v.id,
          metadata := none }) ∧
      db'.dimensions = dims ∧ db'.metric = db.metric := by
  revert hwf
  induction recs generalizing db with
  | nil =>
    intro _
    exact ⟨db, rfl, by simp, hdb, rfl⟩
  | cons v recs ih =>
    intro hwf
    obtain ⟨db₁, heq, hvec, hdim, hmet⟩ := vdb_load_records_cons dims v db
      (hwf v (by simp)) hdb recs.length
      (recs.flatMap (vdb_enc_record dims) ++ ts)
    rw [List.flatMap_cons, List.append_assoc, List.length_cons, heq]
    obtain ⟨db', h1, h2, h3, h4⟩ := ih db₁ hdim
      (fun w hw => hwf w (by simp [hw]))
    refine ⟨db', h1, ?_, h3, by rw [h4, hmet]⟩
    rw [h2, hvec, List.append_assoc]
    simp

theorem vdb_enc_record_ne_nil {α : Type} (dims : Nat) (v : vdb_vector α) :
    vdb_enc_record dims v ≠ [] := by
  simp [vdb_enc_record]

/-- Parsing fails on any proper prefix of one record's encoding: the
truncated float block, missing id length or truncated id bytes all make
the corresponding `fread` fail. -/
theorem vdb_load_record_truncated {α : Type} (dims : Nat)
    (v : vdb_vector α) (db : vdb_database α) (p : List (vdb_file_tok α))
    (n : Nat) (hv : dims ≤ v.data.length)
    (hp : p <+: vdb_enc_record dims v) (hne : p ≠ vdb_enc_record dims v) :
    vdb_load_records dims (n + 1) db p = none := by
  have htake : (v.data.take dims).length = dims := by
    rw [List.length_take]
    omega
  unfold vdb_enc_record at hp hne
  rw [List.append_assoc, List.singleton_append] at hp hne
  rcases vdb_prefix_split hp with hF | ⟨q, rfl, hq⟩
  · by_cases hfull : p = (v.data.take dims).map vdb_file_tok.float
    · subst hfull
      simp only [vdb_load_records]
      have hf := vdb_read_floats_encode (v.data.take dims)
        ([] : List (vdb_file_tok α))
      rw [htake, List.append_nil] at hf
      rw [hf]
    · have hto := List.prefix_iff_eq_take.mp hF
      have hle : p.length ≤ dims := by
        have h1 := hF.length_le
        rw [List.length_map, htake] at h1
        exact h1
      have hlen : p.length < dims := by
        rcases lt_or_eq_of_le hle with h | h
        · exact h
        · exfalso
          apply hfull
          rw [hto, h]
          exact List.take_of_length_le (by rw [List.length_map, htake])
      rw [hto, ← List.map_take]
      simp only [vdb_load_records]
      rw [vdb_read_floats_short dims _ (by rw [List.length_take]; omega)]
  · match q, hq with
    | [], _ =>
      rw [List.append_nil]
      simp only [vdb_load_records]
      have hf := vdb_read_floats_encode (v.data.take dims)
        ([] : List (vdb_file_tok α))
      rw [htake, List.append_nil] at hf
      rw [hf]
    | t :: q', hq =>
      rw [List.cons_prefix_cons] at hq
      obtain ⟨rfl, hq'⟩ := hq
      have hq'ne : q' ≠ vdb_id_bytes v.id := by
        intro h0
        exact hne (by rw [h0])
      simp only [vdb_load_records]
      have hf := vdb_read_floats_encode (v.data.take dims)
        (vdb_file_tok.u32 (vdb_id_len v.id) :: q')
      rw [htake] at hf
      rw [hf]
      dsimp only
      cases hid : v.id with
      | none =>
        rw [hid] at hq' hq'ne
        dsimp only [vdb_id_bytes] at hq' hq'ne
        exact absurd (List.prefix_nil.mp hq') hq'ne
      | some s =>
        rw [hid] at hq' hq'ne
        dsimp only [vdb_id_bytes] at hq' hq'ne
        have hto := List.prefix_iff_eq_take.mp hq'
        have hle : q'.length ≤ s.length := by
          have h1 := hq'.length_le
          rw [List.length_map] at h1
          exact h1
        have hlen : q'.length < s.length := by
          rcases lt_or_eq_of_le hle with h | h
          · exact h
          · exfalso
            apply hq'ne
            rw [hto, h]
            exact List.take_of_length_le
              (by rw [List.length_map, show s.toList.length = s.length
                from rfl])
        rw [hto, ← List.map_take]
        dsimp only [vdb_id_len]
        rw [vdb_read_chars_short s.length _ (by rw [List.length_take]; omega)]

/-- Parsing fails on any proper prefix of the record stream: the cut falls
inside some record's encoding (or leaves whole records missing), and the
corresponding read hits the end of the file. -/
theorem vdb_load_records_truncated {α : Type} (dims : Nat)
    (recs : List (vdb_vector α)) (db : vdb_database α)
    (p : List (vdb_file_tok α))
    (hwf : ∀ v ∈ recs, dims ≤ v.data.length)
    (hdb : db.dimensions = dims)
    (hp : p <+: recs.flatMap (vdb_enc_record dims))
    (hne : p ≠ recs.flatMap (vdb_enc_record dims)) :
    vdb_load_records dims recs.length db p = none := by
  revert hwf hp hne
  induction recs generalizing db p with
  | nil =>
    intro _ hp hne
    rw [List.flatMap_nil] at hp hne
    exact absurd (List.prefix_nil.mp hp) hne
  | cons v recs ih =>
    intro hwf hp hne
    rw [List.flatMap_cons] at hp hne
    rcases vdb_prefix_split hp with hA | ⟨q, rfl, hq⟩
    · by_cases hfull : p = vdb_enc_record dims v
      · subst hfull
        have hS : recs.flatMap (vdb_enc_record dims) ≠ [] := by
          intro h0
          rw [h0, List.append_nil] at hne
          exact hne rfl
        obtain ⟨db₁, heq, hvec, hdim, hmet⟩ := vdb_load_records_cons dims v
          db (hwf v (by simp)) hdb recs.length []
        rw [List.length_cons,
          show vdb_enc_record dims v = vdb_enc_record dims v ++ []
            from (List.append_nil _).symm, heq]
        exact ih db₁ [] hdim (fun w hw => hwf w (by simp [hw])) (by simp)
          (fun h0 => hS h0.symm)
      · rw [List.length_cons]
        exact vdb_load_record_truncated dims v db p recs.length
          (hwf v (by simp)) hA hfull
    · have hqne : q ≠ recs.flatMap (vdb_enc_record dims) := by
        intro h0
        rw [h0] at hne
        exact hne rfl
      obtain ⟨db₁, heq, hvec, hdim, hmet⟩ := vdb_load_records_cons dims v db
        (hwf v (by simp)) hdb recs.length q
      rw [List.length_cons, heq]
      exact ih db₁ q hdim (fun w hw => hwf w (by simp [hw])) hq hqne

theorem vdb_save_eq {α : Type} (db : vdb_database α)
    (hwf : ∀ v ∈ db.vectors, db.dimensions ≤ v.data.length) :
    vdb_save db = some
      ([vdb_file_tok.u32 0x56444230, vdb_file_tok.usize db.dimensions,
        vdb_file_tok.usize db.vectors.length,
        vdb_file_tok.metric db.metric]
        ++ db.vectors.flatMap (vdb_enc_record db.dimensions)) := by
  unfold vdb_save
  rw [if_pos]
  rw [List.all_eq_true]
  intro v hv
  exact decide_eq_true (hwf v hv)

/-- Concrete database whose single record carries the empty-string
identifier — present, and distinct from `NULL` in the data model. -/
def dbEmptyId : vdb_database ℚ :=
  { vectors := [{ data := [2], id := some "", metadata := some 9 }],
    capacity := 16, dimensions := 1, metric := VDB_METRIC_COSINE }

/-- **C2 counterexample**: a record whose identifier is the *empty string*
is saved with `id_len = 0` — indistinguishable from `NULL` — and reloads
with an absent identifier, so `load(save(D))` does not preserve
identifiers (`None` and `""` collapse). -/
theorem vdb_round_trip_drops_empty_id :
    dbEmptyId.vectors.map (fun v => v.id) = [some ""] ∧
    ((vdb_save dbEmptyId).bind vdb_load).map
      (fun d => d.vectors.map (fun v => v.id)) = some [none] := by
  constructor
  · rfl
  · decide

/-- **C2 (amended)**: for a well-formed database (positive dimensionality,
every stored vector of that length — guaranteed for databases built
through the API), `load(save(D))` succeeds and yields a database with
identical `dimensions`, `metric`, `count` and identical vectors in
identical order; identifiers are preserved *except* that an empty-string
identifier (saved as `id_len = 0`, like `NULL`) reloads as absent; every
loaded record's attachment is absent regardless of D's attachments. -/
theorem vdb_save_load_round_trip {α : Type} (db : vdb_database α)
    (hdim : 0 < db.dimensions)
    (hwf : ∀ v ∈ db.vectors, v.data.length = db.dimensions) :
    ∃ f db', vdb_save db = some f ∧ vdb_load f = some db' ∧
      vdb_dimensions db' = vdb_dimensions db ∧ db'.metric = db.metric ∧
      vdb_count db' = vdb_count db ∧
      db'.vectors.map (fun v => v.data) = db.vectors.map (fun v => v.data) ∧
      db'.vectors.map (fun v => v.id) =
        db.vectors.map (fun v => vdb_norm_id v.id) ∧
      (∀ v ∈ db'.vectors, v.metadata = none) := by
  have hsave := vdb_save_eq db (fun v hv => (hwf v hv).ge)
  obtain ⟨db', hload, hvecs, hdim', hmet'⟩ :=
    vdb_load_records_encode db.dimensions db.vectors
      { vectors := [], capacity := 0, dimensions := db.dimensions,
        metric := db.metric }
      [] (fun v hv => (hwf v hv).ge) rfl
  rw [List.append_nil] at hload
  refine ⟨_, db', hsave, ?_, ?_, ?_, ?_, ?_, ?_, ?_⟩
  · simp only [List.cons_append, List.nil_append]
    simp only [vdb_load]
    rw [if_pos trivial]
    unfold vdb_create
    rw [if_neg (by omega)]
    exact hload
  · unfold vdb_dimensions
    exact hdim'
  · rw [hmet']
  · unfold vdb_count
    rw [hvecs]
    simp
  · rw [hvecs]
    simp only [List.nil_append, List.map_map]
    refine List.map_congr_left ?_
    intro v hv
    show (v.data.take db.dimensions) = v.data
    exact List.take_of_length_le (hwf v hv).le
  · rw [hvecs]
    simp only [List.nil_append, List.map_map]
    rfl
  · intro v hv
    rw [hvecs] at hv
    simp only [List.nil_append, List.mem_map] at hv
    obtain ⟨w, _, rfl⟩ := hv
    rfl

theorem vdb_save_load_round_trip_witness :
    (0 < dbRem.dimensions ∧
      ∀ v ∈ dbRem.vectors, v.data.length = dbRem.dimensions) ∧
    ∃ f db', vdb_save dbRem = some f ∧ vdb_load f = some db' ∧
      vdb_dimensions db' = vdb_dimensions dbRem ∧
      db'.metric = dbRem.metric ∧
      vdb_count db' = vdb_count dbRem ∧
      db'.vectors.map (fun v => v.data) =
        dbRem.vectors.map (fun v => v.data) ∧
      db'.vectors.map (fun v => v.id) =
        dbRem.vectors.map (fun v => vdb_norm_id v.id) ∧
      (∀ v ∈ db'.vectors, v.metadata = none) :=
  ⟨⟨by decide, by decide⟩,
    vdb_save_load_round_trip dbRem (by decide) (by decide)⟩

/-- **C7**: `vdb_load` validates the magic tag first — any file that does
not start with the magic word loads as `none` — and a file truncated
anywhere (any proper prefix of a saved file) makes some field's read fail
and the entire load return `none`; since the model's `vdb_load` is a total
function into `Option`, either a complete database or `none` is returned,
never a partial one. -/
theorem vdb_load_fail_safety {α : Type} (file p f : List (vdb_file_tok α))
    (db : vdb_database α) :
    ((∀ rest : List (vdb_file_tok α),
        file ≠ vdb_file_tok.u32 0x56444230 :: rest) →
      vdb_load file = none) ∧
    (vdb_save db = some f → p <+: f → p ≠ f → vdb_load p = none) := by
  constructor
  · intro hmagic
    match file with
    | [] => rfl
    | vdb_file_tok.u32 m :: rest =>
      by_cases hm : m = 0x56444230
      · exact absurd (by rw [hm]) (hmagic rest)
      · simp only [vdb_load]
        rw [if_neg hm]
    | vdb_file_tok.usize n :: rest => rfl
    | vdb_file_tok.metric m :: rest => rfl
    | vdb_file_tok.float x :: rest => rfl
    | vdb_file_tok.char c :: rest => rfl
  · intro hsave hp hne
    unfold vdb_save at hsave
    split at hsave
    case isFalse => exact absurd hsave (by simp)
    case isTrue hall =>
      rw [List.all_eq_true] at hall
      have hwf : ∀ v ∈ db.vectors, db.dimensions ≤ v.data.length :=
        fun v hv => of_decide_eq_true (hall v hv)
      simp only [Option.some.injEq] at hsave
      rw [← hsave, List.cons_append, List.cons_append, List.cons_append,
        List.singleton_append] at hp hne
      match p, hp with
      | [], _ => rfl
      | t₁ :: p₁, hp =>
        rw [List.cons_prefix_cons] at hp
        obtain ⟨rfl, hp₁⟩ := hp
        match p₁, hp₁ with
        | [], _ => rfl
        | t₂ :: p₂, hp₁ =>
          rw [List.cons_prefix_cons] at hp₁
          obtain ⟨rfl, hp₂⟩ := hp₁
          match p₂, hp₂ with
          | [], _ => rfl
          | t₃ :: p₃, hp₂ =>
            rw [List.cons_prefix_cons] at hp₂
            obtain ⟨rfl, hp₃⟩ := hp₂
            match p₃, hp₃ with
            | [], _ => rfl
            | t₄ :: p₄, hp₃ =>
              rw [List.cons_prefix_cons] at hp₃
              obtain ⟨rfl, hp₄⟩ := hp₃
              have hne₄ : p₄ ≠ db.vectors.flatMap
                  (vdb_enc_record db.dimensions) := by
                intro h0
                rw [h0] at hne
                exact hne rfl
              simp only [vdb_load]
              rw [if_pos trivial]
              by_cases hd : db.dimensions = 0
              · unfold vdb_create
                rw [if_pos hd]
              · unfold vdb_create
                rw [if_neg hd]
                exact vdb_load_records_truncated db.dimensions db.vectors
                  _ p₄ hwf rfl hp₄ hne₄
theorem vdb_load_fail_safety_witness :
    ((∀ rest : List (vdb_file_tok ℚ),
        [vdb_file_tok.usize 3] ≠ vdb_file_tok.u32 0x56444230 :: rest) ∧
      vdb_load [vdb_file_tok.usize (3 : Nat) (α := ℚ)] = none) ∧
    (∃ f : List (vdb_file_tok ℚ), vdb_save dbRem = some f ∧
      ([] : List (vdb_file_tok ℚ)) <+: f ∧
      ([] : List (vdb_file_tok ℚ)) ≠ f ∧
      vdb_load ([] : List (vdb_file_tok ℚ)) = none) := by
  have hm : ∀ rest : List (vdb_file_tok ℚ),
      [vdb_file_tok.usize 3] ≠ vdb_file_tok.u32 0x56444230 :: rest := by
    intro rest
    simp
  have hsave : vdb_save dbRem = some
      ([vdb_file_tok.u32 0x56444230, vdb_file_tok.usize 1,
        vdb_file_tok.usize 2, vdb_file_tok.metric VDB_METRIC_EUCLIDEAN]
        ++ dbRem.vectors.flatMap (vdb_enc_record 1)) := by decide
  refine ⟨⟨hm, (vdb_load_fail_safety [vdb_file_tok.usize 3] [] [] dbRem).1
      hm⟩, _, hsave, ?_, ?_, ?_⟩
  · simp
  · decide
  · exact (vdb_load_fail_safety [vdb_file_tok.usize 3] [] _ dbRem).2 hsave
      (by simp) (by decide)
